import Mathlib

/-!
Verification of the AgentWallet browser chat client core: the session
identity provider (`utils/session.js`), the two zustand stores
(`stores/chatStore.js`, `stores/walletStore.js`), the orchestrator
transitions of `App.jsx` (`fetchWallet`, `handleSend`) together with the
submission guard of `components/ChatInput.jsx`, and the content formatter
of `components/ChatMessage.jsx` (two sequential regex-replacement passes).

The JavaScript is shallowly embedded: stores become record types, the
async handlers become pure state transformers parameterised by the
gateway outcome (`Except Unit _` models a thrown `NetworkError` versus a
structured reply), and the two regex passes become character-list scans
with the exact semantics of `/(0x[a-fA-F0-9]{64})/g` and
`/\b(0x[a-fA-F0-9]{40})\b/g` under `String.prototype.replace`.
-/

namespace AgentWallet

/-! ## Data model (stores/chatStore.js, stores/walletStore.js) -/

inductive Role where
  | user
  | assistant
deriving DecidableEq, Repr

structure Message where
  role : Role
  content : String
deriving DecidableEq, Repr

structure ChatState where
  messages : List Message
  isLoading : Bool
deriving DecidableEq, Repr

structure WalletRecord where
  address : String
  network : String
deriving DecidableEq, Repr

structure WalletState where
  wallet : Option WalletRecord
  isLoading : Bool
deriving DecidableEq, Repr

/-- `addMessage` of chatStore.js: appends to the ordered log. -/
def addMessage (m : Message) (s : ChatState) : ChatState :=
  { s with messages := s.messages ++ [m] }

/-- `setLoading` of chatStore.js. -/
def setChatLoading (b : Bool) (s : ChatState) : ChatState :=
  { s with isLoading := b }

/-- `clearMessages` of chatStore.js. -/
def clearMessages (s : ChatState) : ChatState :=
  { s with messages := [] }

/-- `setWallet` of walletStore.js: `set({ wallet, isLoading: false })`. -/
def setWallet (w : Option WalletRecord) (_s : WalletState) : WalletState :=
  { wallet := w, isLoading := false }

/-- `setLoading` of walletStore.js. -/
def setWalletLoading (b : Bool) (s : WalletState) : WalletState :=
  { s with isLoading := b }

/-- `clearWallet` of walletStore.js. -/
def clearWallet (_s : WalletState) : WalletState :=
  { wallet := none, isLoading := false }

/-! ## Backend gateway payloads (utils/api.js) -/

structure SendResponse where
  response : String
  wallet : Option WalletRecord
deriving DecidableEq, Repr

structure FetchResponse where
  wallet : Option WalletRecord
deriving DecidableEq, Repr

/-! ## Orchestrator (App.jsx) -/

structure AppState where
  chat : ChatState
  walletSt : WalletState
deriving DecidableEq, Repr

/-- Initial zustand store contents: `messages: []`, `isLoading: false`,
`wallet: null`, `isLoading: false`. -/
def initialAppState : AppState :=
  { chat := { messages := [], isLoading := false },
    walletSt := { wallet := none, isLoading := false } }

/-- The fixed user-visible error string appended by `handleSend`'s catch
branch in App.jsx.  The source file literally contains the three
characters U+201A U+00F9 U+00E5 before " Error". -/
def errorText : String :=
  "‚ùå Error: Failed to process your message. Please try again."

/-- The reconciliation test of App.jsx line 48:
`response.wallet && (!wallet || wallet.address !== response.wallet.address)`
(the `response.wallet &&` part is the surrounding `match` in
`handleSend`). -/
def walletNeedsUpdate (cached : Option WalletRecord) (incoming : WalletRecord) : Bool :=
  match cached with
  | none => true
  | some c => c.address != incoming.address

/-- `handleSend` of App.jsx as a state transformer.  `result` is the
outcome of the awaited `sendMessage` call: `.ok` a structured reply,
`.error` a thrown `NetworkError`.  The `finally` block runs
`setLoading(false)` on both paths. -/
def handleSend (result : Except Unit SendResponse) (message : String)
    (s : AppState) : AppState :=
  let chat1 := setChatLoading true (addMessage ⟨Role.user, message⟩ s.chat)
  match result with
  | Except.ok r =>
    let chat2 := addMessage ⟨Role.assistant, r.response⟩ chat1
    let ws :=
      match r.wallet with
      | some w =>
        if walletNeedsUpdate s.walletSt.wallet w then setWallet (some w) s.walletSt
        else s.walletSt
      | none => s.walletSt
    { chat := setChatLoading false chat2, walletSt := ws }
  | Except.error _ =>
    let chat2 := addMessage ⟨Role.assistant, errorText⟩ chat1
    { chat := setChatLoading false chat2, walletSt := s.walletSt }

/-- `handleSubmit` of ChatInput.jsx wired as in App.jsx line 176
(`disabled = isLoading`): `if (input.trim() && !disabled)
onSend(input.trim())`.  The boolean result records whether the gateway
call was started. -/
def handleSubmit (result : Except Unit SendResponse) (input : String)
    (s : AppState) : AppState × Bool :=
  if input.trim ≠ "" ∧ s.chat.isLoading = false then
    (handleSend result input.trim s, true)
  else (s, false)

/-- The startup `fetchWallet` of App.jsx: `setWalletLoading(true)`, then
on success `if (data.wallet) setWallet(data.wallet)` (no else branch),
on failure only a log; `finally` runs `setWalletLoading(false)`. -/
def fetchWallet (result : Except Unit FetchResponse) (s : AppState) : AppState :=
  let ws1 := setWalletLoading true s.walletSt
  match result with
  | Except.ok r =>
    match r.wallet with
    | some w => { s with walletSt := setWalletLoading false (setWallet (some w) ws1) }
    | none => { s with walletSt := setWalletLoading false ws1 }
  | Except.error _ => { s with walletSt := setWalletLoading false ws1 }

/-! ## Session identity provider (utils/session.js)

Browser `localStorage` under the single key `wallet_agent_session_id` is
modelled as an `Option String`.  `Date.now()` and the random suffix are
oracle parameters. -/

/-- The synthesized id: `` `session_${Date.now()}_${random}` ``. -/
def freshSessionId (now : Nat) (rand : String) : String :=
  "session_" ++ toString now ++ "_" ++ rand

/-- `getSessionId` of utils/session.js.  `!sessionId` is truthy for a
missing key (`null`) and for the empty string, so both regenerate.
Returns the id together with the storage state after the call. -/
def getSessionId (store : Option String) (now : Nat) (rand : String) :
    String × Option String :=
  match store with
  | some id =>
    if id = "" then
      let nid := freshSessionId now rand
      (nid, some nid)
    else (id, some id)
  | none =>
    let nid := freshSessionId now rand
    (nid, some nid)

/-- `clearSession` of utils/session.js: removes the stored key. -/
def clearSession (_store : Option String) : Option String := none

/-- Runs a sequence of `getSessionId` calls (oracle pair per call),
collecting the returned ids and the final storage state. -/
def runCalls (store : Option String) : List (Nat × String) → List String × Option String
  | [] => ([], store)
  | (n, r) :: rest =>
    let c := getSessionId store n r
    let tail := runCalls c.2 rest
    (c.1 :: tail.1, tail.2)

/-! ## Content formatter (components/ChatMessage.jsx)

`formatMessage` runs two sequential `String.prototype.replace` passes:
first `/(0x[a-fA-F0-9]{64})/g` (transaction hashes), then
`/\b(0x[a-fA-F0-9]{40})\b/g` (addresses) over the result of the first
pass.  Both are embedded as left-to-right scans over `List Char`; the
address pass threads whether the previous character of the scanned
string is a word character (`\w = [A-Za-z0-9_]`), which is exactly what
its two `\b` assertions consult. -/

/-- The regex character class `[a-fA-F0-9]`. -/
def isHexDigit (c : Char) : Bool :=
  ('0' ≤ c && c ≤ '9') || ('a' ≤ c && c ≤ 'f') || ('A' ≤ c && c ≤ 'F')

/-- The regex character class `\w`, i.e. `[A-Za-z0-9_]`, which `\b`
consults. -/
def isWordChar (c : Char) : Bool :=
  ('0' ≤ c && c ≤ '9') || ('a' ≤ c && c ≤ 'z') || ('A' ≤ c && c ≤ 'Z') || c == '_'

/-- Opening of the transaction-hash replacement template up to the href
value (ChatMessage.jsx line 11). -/
def txPartA : List Char := "<a href=\"https://sepolia.basescan.org/tx/".data

/-- Template text between the href value and the visible label,
including the newline and indentation inside the template literal. -/
def txPartB : List Char :=
  "\" target=\"_blank\" rel=\"noopener noreferrer\" class=\"text-defi-lavender hover:text-defi-lavender-light underline decoration-dotted underline-offset-2 transition-colors inline-flex items-center gap-1\">\n        ".data

/-- The literal three ASCII dots between the two label slices. -/
def sliceDots : List Char := "...".data

/-- Template text after the label: the icon `<svg>` markup and the
closing `</a>` (ChatMessage.jsx lines 13-14). -/
def txPartC : List Char :=
  "\n        <svg class=\"w-3 h-3\" fill=\"none\" stroke=\"currentColor\" viewBox=\"0 0 24 24\"><path stroke-linecap=\"round\" stroke-linejoin=\"round\" stroke-width=\"2\" d=\"M10 6H6a2 2 0 00-2 2v10a2 2 0 002 2h10a2 2 0 002-2v-4M14 4h6m0 0v6m0-6L10 14\" /></svg>\n      </a>".data

/-- The transaction-hash replacement for a full match `m`:
href carries the raw match, the label is
`match.slice(0, 10) + "..." + match.slice(-8)`. -/
def txBlock (m : List Char) : List Char :=
  txPartA ++ m ++ txPartB ++ m.take 10 ++ sliceDots ++ m.drop (m.length - 8) ++ txPartC

/-- Opening of the address replacement template (ChatMessage.jsx
line 18). -/
def addrPartA : List Char :=
  "<code class=\"bg-defi-bg-lighter/80 px-2 py-0.5 rounded text-sm text-defi-lavender border border-defi-border/50 font-mono\">".data

/-- Closing tag of the address replacement template. -/
def addrPartB : List Char := "</code>".data

/-- The address replacement for a full match `m`: the label is
`match.slice(0, 8) + "..." + match.slice(-6)`; the raw match is not
retained. -/
def addrBlock (m : List Char) : List Char :=
  addrPartA ++ m.take 8 ++ sliceDots ++ m.drop (m.length - 6) ++ addrPartB

/-- The first pass, `text.replace(/(0x[a-fA-F0-9]{64})/g, ...)`: scan
left to right; at each position the pattern matches exactly when the
character is `0`, the next is `x`, and exactly 64 hex digits follow;
the whole 66-character match is consumed and scanning resumes after it.
Consumption is encoded structurally: after emitting the replacement for
a match found at the head, the scanner skips the remaining 65 matched
characters (`skip` counts characters still to consume). -/
def txGo : Nat → List Char → List Char
  | skip + 1, _ :: cs => txGo skip cs
  | _, [] => []
  | 0, c :: cs =>
    if c = '0' ∧ cs.head? = some 'x' ∧ (cs.tail.take 64).length = 64
        ∧ (cs.tail.take 64).all isHexDigit = true then
      txBlock ('0' :: 'x' :: cs.tail.take 64) ++ txGo 65 cs
    else c :: txGo 0 cs

/-- The transaction-hash pass over a whole string. -/
def txReplace (l : List Char) : List Char := txGo 0 l

/-- The second pass, `formatted.replace(/\b(0x[a-fA-F0-9]{40})\b/g, ...)`.
`prevW` records whether the character just before the current scan
position is a word character (`false` at the start of the string).  The
leading `\b` sits before the word character `0`, so it holds exactly
when `prevW = false`; the trailing `\b` sits after a hex digit, so it
holds exactly when the next character is absent or not a word
character.  A match consumes 42 characters (the head plus 41 skipped);
the scan resumes after it with `prevW = true`, since the character
before the resume point is the match's final hex digit, a word
character. -/
def addrGo : Nat → Bool → List Char → List Char
  | skip + 1, b, _ :: cs => addrGo skip b cs
  | _, _, [] => []
  | 0, prevW, c :: cs =>
    if prevW = false ∧ c = '0' ∧ cs.head? = some 'x' ∧ (cs.tail.take 40).length = 40
        ∧ (cs.tail.take 40).all isHexDigit = true
        ∧ (match (cs.tail.drop 40).head? with
           | none => true
           | some d => !isWordChar d) = true then
      addrBlock ('0' :: 'x' :: cs.tail.take 40) ++ addrGo 41 true cs
    else c :: addrGo 0 (isWordChar c) cs

/-- The address pass over a whole string, given whether the character
before the scan start is a word character. -/
def addrReplace (prevW : Bool) (l : List Char) : List Char := addrGo 0 prevW l

/-- `formatMessage` of ChatMessage.jsx: the transaction-hash pass, then
the address pass on its result. -/
def formatMessage (s : String) : String :=
  String.mk (addrReplace false (txReplace s.data))

/-! ## Spec-side comparison definition and concrete inputs -/

/-- Transcribed from the spec's words (for comparison against
`handleSend`): "if the payload includes a `wallet` whose address differs
from the currently cached wallet (or no wallet is currently cached),
overwrite Wallet State Store with the new record"; otherwise the store
is left unchanged. -/
def walletReconSpec (prev : WalletState) (incoming : Option WalletRecord) : WalletState :=
  match incoming with
  | none => prev
  | some w =>
    match prev.wallet with
    | none => { wallet := some w, isLoading := false }
    | some c =>
      if c.address = w.address then prev
      else { wallet := some w, isLoading := false }

/-- A state whose chat sub-state is `AwaitingChatReply`
(`isLoading = true`), used to instantiate guarded-submission claims. -/
def busyChatState : AppState :=
  { chat := { messages := [], isLoading := true },
    walletSt := { wallet := none, isLoading := false } }

/-- The 66-character token `"0x" ++ "a"*64`. -/
def tokenA64 : List Char := '0' :: 'x' :: List.replicate 64 'a'

/-- An input containing the token `tokenA64` preceded by `"0x" ++ "b"*63`:
the first pass matches `0x` followed by the 63 `b`s and the token's
leading `0`, overlapping the token. -/
def overlapInput : List Char :=
  '0' :: 'x' :: (List.replicate 63 'b' ++ '0' :: 'x' :: List.replicate 64 'a')

/-- The C6 scenario input `"tx 0x" ++ "a"*64 ++ " done"`. -/
def c6Input : List Char := "tx ".data ++ tokenA64 ++ " done".data

/-! ### Decidable scanning predicates used in claim statements -/

/-- Whether the two-character sequence `0x` occurs nowhere in the list
(so neither regex can start a match inside it, both patterns beginning
with the literal `0x`). -/
def noZeroX : List Char → Bool
  | c :: c' :: cs => !(c == '0' && c' == 'x') && noZeroX (c' :: cs)
  | _ => true

/-- Whether the list's first character (if any) can terminate a maximal
hex run and start no overlapping match: it is not a hex digit (the run
really ends there) and not the letter `x` (no `0x` can form across the
junction). -/
def headStopsRun : List Char → Bool
  | [] => true
  | c :: _ => !isHexDigit c && !(c == 'x')

/-- Whether `0x` followed by at least 40 hex digits starts at the head
of the list — the common prefix demanded by both regex patterns. -/
def run40At : List Char → Bool
  | c :: c' :: rest =>
    c == '0' && c' == 'x' && (rest.take 40).length == 40
      && (rest.take 40).all isHexDigit
  | _ => false

/-- Whether `0x` followed by at least 40 hex digits occurs anywhere in
the list.  A list without such an occurrence contains no `0x`-prefixed
hex run of length 40 or 64 (in particular no matchable span of either
pattern). -/
def hasRun40 : List Char → Bool
  | [] => false
  | c :: cs => run40At (c :: cs) || hasRun40 cs

/-- Whether `pat` occurs as a contiguous subsequence of the list
(executable counterpart of `pat <:+: l`). -/
def containsSeq (pat : List Char) : List Char → Bool
  | [] => pat.isEmpty
  | c :: cs => pat.isPrefixOf (c :: cs) || containsSeq pat cs

/-- The word-character status of the character just before the position
following list `p`, when the scan entered `p` with status `b`: the
status of `p`'s last character, or `b` if `p` is empty. -/
def exitW (p : List Char) (b : Bool) : Bool :=
  match p.getLast? with
  | none => b
  | some c => isWordChar c

end AgentWallet

namespace AgentWallet

/-! ## Helper lemmas: session identity -/

/-- A synthesized session id is never the empty string. -/
theorem freshSessionId_ne (n : Nat) (r : String) : freshSessionId n r ≠ "" := by
  intro h
  have h2 : (freshSessionId n r).length = 0 := by rw [h]; rfl
  rw [freshSessionId, String.length_append, String.length_append,
    String.length_append] at h2
  have h8 : ("session_" : String).length = 8 := rfl
  omega

/-- Every `getSessionId` call leaves its returned id in storage, and
that id is nonempty. -/
theorem getSessionId_persists (st : Option String) (n : Nat) (r : String) :
    (getSessionId st n r).2 = some (getSessionId st n r).1
    ∧ (getSessionId st n r).1 ≠ "" := by
  cases st with
  | none => exact ⟨rfl, freshSessionId_ne n r⟩
  | some id =>
    by_cases h : id = "" <;> simp [getSessionId, h, freshSessionId_ne n r]

/-- On storage holding a nonempty id, `getSessionId` returns it and
leaves storage unchanged. -/
theorem getSessionId_stable (id : String) (h : id ≠ "") (n : Nat) (r : String) :
    getSessionId (some id) n r = (id, some id) := by
  simp [getSessionId, h]

/-- Any sequence of calls on storage holding a nonempty id returns that
id every time and leaves storage unchanged. -/
theorem runCalls_stable (id : String) (h : id ≠ "") (calls : List (Nat × String)) :
    runCalls (some id) calls = (List.replicate calls.length id, some id) := by
  induction calls with
  | nil => rfl
  | cons c rest ih =>
    rcases c with ⟨n, r⟩
    simp [runCalls, getSessionId_stable id h, ih, List.replicate_succ]

/-! ## Helper lemmas: the formatter -/

/-- Every hex digit is a word character. -/
theorem isWordChar_of_isHexDigit {c : Char} (h : isHexDigit c = true) :
    isWordChar c = true := by
  rw [isHexDigit] at h
  rw [isWordChar]
  simp only [Bool.or_eq_true, Bool.and_eq_true, decide_eq_true_eq, beq_iff_eq] at h ⊢
  rcases h with (⟨h1, h2⟩ | ⟨h1, h2⟩) | ⟨h1, h2⟩
  · exact Or.inl (Or.inl (Or.inl ⟨h1, h2⟩))
  · exact Or.inl (Or.inl (Or.inr ⟨h1, le_trans h2 (by decide)⟩))
  · exact Or.inl (Or.inr ⟨h1, le_trans h2 (by decide)⟩)

/-- A hex digit is never the character `x`. -/
theorem ne_x_of_isHexDigit {c : Char} (h : isHexDigit c = true) : c ≠ 'x' := by
  intro he
  subst he
  simp [isHexDigit] at h

/-- Skipping `n` characters scans the `n`-th suffix. -/
theorem txGo_skip (n : Nat) (l : List Char) : txGo n l = txGo 0 (l.drop n) := by
  induction n generalizing l with
  | zero => rfl
  | succ n ih =>
    cases l with
    | nil => rfl
    | cons c cs => rw [List.drop_succ_cons, txGo, ih]

/-- Skipping `n` characters scans the `n`-th suffix (address pass). -/
theorem addrGo_skip (n : Nat) (b : Bool) (l : List Char) :
    addrGo n b l = addrGo 0 b (l.drop n) := by
  induction n generalizing l with
  | zero => rfl
  | succ n ih =>
    cases l with
    | nil => rfl
    | cons c cs => rw [List.drop_succ_cons, addrGo, ih]

/-- `containsSeq` decides contiguous-subsequence occurrence. -/
theorem containsSeq_iff (pat l : List Char) :
    containsSeq pat l = true ↔ pat <:+: l := by
  induction l with
  | nil =>
    rw [containsSeq, List.infix_nil, List.isEmpty_iff]
  | cons c cs ih =>
    rw [containsSeq, Bool.or_eq_true_iff, ih, List.infix_cons_iff,
      List.isPrefixOf_iff_prefix]

/-- `exitW` peels one leading character. -/
theorem exitW_cons (c : Char) (p : List Char) (b : Bool) :
    exitW (c :: p) b = exitW p (isWordChar c) := by
  cases p with
  | nil => rfl
  | cons c' p' =>
    unfold exitW
    rw [List.getLast?_cons_cons]
    cases hl : (c' :: p').getLast? with
    | none => rw [List.getLast?_eq_none_iff] at hl; exact absurd hl (by simp)
    | some d => rfl

/-- After a nonempty all-hex segment the previous character is a word
character. -/
theorem exitW_hex {w : List Char} (b : Bool) (hne : w ≠ [])
    (h : w.all isHexDigit = true) : exitW w b = true := by
  induction w generalizing b with
  | nil => exact absurd rfl hne
  | cons c w' ih =>
    rw [List.all_cons, Bool.and_eq_true] at h
    rw [exitW_cons]
    cases w' with
    | nil =>
      show isWordChar c = true
      exact isWordChar_of_isHexDigit h.1
    | cons c'' w'' => exact ih _ (by simp) h.2

/-- The transaction-hash pass copies a segment containing no `0x`,
provided no match starts at the junction with what follows. -/
theorem txSkip (p rest : List Char) (hz : noZeroX p = true)
    (hj : p.getLast? = some '0' → rest.head? ≠ some 'x') :
    txGo 0 (p ++ rest) = p ++ txGo 0 rest := by
  induction p with
  | nil => simp
  | cons c p' ih =>
    have hcond : ¬(c = '0' ∧ (p' ++ rest).head? = some 'x'
        ∧ ((p' ++ rest).tail.take 64).length = 64
        ∧ ((p' ++ rest).tail.take 64).all isHexDigit = true) := by
      rintro ⟨hc0, hx, -, -⟩
      cases p' with
      | nil =>
        exact hj (by simp [hc0]) (by simpa using hx)
      | cons c' p'' =>
        rw [noZeroX, Bool.and_eq_true] at hz
        have hc' : c' = 'x' := by simpa using hx
        simp [hc0, hc'] at hz
    rw [List.cons_append, txGo, if_neg hcond]
    have hz' : noZeroX p' = true := by
      cases p' with
      | nil => rfl
      | cons c' p'' =>
        rw [noZeroX, Bool.and_eq_true] at hz
        exact hz.2
    have hj' : p'.getLast? = some '0' → rest.head? ≠ some 'x' := by
      intro hl
      cases p' with
      | nil => simp at hl
      | cons c' p'' => exact hj (by rw [List.getLast?_cons_cons]; exact hl)
    rw [ih hz' hj']
    rfl

/-- The address pass copies a segment containing no `0x`, provided no
match starts at the junction with what follows; the threaded
word-character status exits as that of the segment's last character. -/
theorem addrSkip (p : List Char) (b : Bool) (rest : List Char)
    (hz : noZeroX p = true)
    (hj : p.getLast? = some '0' → rest.head? ≠ some 'x') :
    addrGo 0 b (p ++ rest) = p ++ addrGo 0 (exitW p b) rest := by
  induction p generalizing b with
  | nil => simp [exitW]
  | cons c p' ih =>
    have hcond : ¬(b = false ∧ c = '0' ∧ (p' ++ rest).head? = some 'x'
        ∧ ((p' ++ rest).tail.take 40).length = 40
        ∧ ((p' ++ rest).tail.take 40).all isHexDigit = true
        ∧ (match ((p' ++ rest).tail.drop 40).head? with
           | none => true
           | some d => !isWordChar d) = true) := by
      rintro ⟨-, hc0, hx, -, -, -⟩
      cases p' with
      | nil =>
        exact hj (by simp [hc0]) (by simpa using hx)
      | cons c' p'' =>
        rw [noZeroX, Bool.and_eq_true] at hz
        have hc' : c' = 'x' := by simpa using hx
        simp [hc0, hc'] at hz
    rw [List.cons_append, addrGo, if_neg hcond]
    have hz' : noZeroX p' = true := by
      cases p' with
      | nil => rfl
      | cons c' p'' =>
        rw [noZeroX, Bool.and_eq_true] at hz
        exact hz.2
    have hj' : p'.getLast? = some '0' → rest.head? ≠ some 'x' := by
      intro hl
      cases p' with
      | nil => simp at hl
      | cons c' p'' => exact hj (by rw [List.getLast?_cons_cons]; exact hl)
    rw [ih _ hz' hj', exitW_cons]
    rfl

/-- The address pass copies an all-hex segment: no match can start at
or inside it because `x` is not a hex digit, so the character after any
interior `0` cannot be `x`. -/
theorem hexSkip (w : List Char) (b : Bool) (rest : List Char)
    (hw : w.all isHexDigit = true) (hj : rest.head? ≠ some 'x') :
    addrGo 0 b (w ++ rest) = w ++ addrGo 0 (exitW w b) rest := by
  induction w generalizing b with
  | nil => simp [exitW]
  | cons c w' ih =>
    rw [List.all_cons, Bool.and_eq_true] at hw
    have hcond : ¬(b = false ∧ c = '0' ∧ (w' ++ rest).head? = some 'x'
        ∧ ((w' ++ rest).tail.take 40).length = 40
        ∧ ((w' ++ rest).tail.take 40).all isHexDigit = true
        ∧ (match ((w' ++ rest).tail.drop 40).head? with
           | none => true
           | some d => !isWordChar d) = true) := by
      rintro ⟨-, hc0, hx, -, -, -⟩
      cases w' with
      | nil => exact hj (by simpa using hx)
      | cons c' w'' =>
        have hc' : c' = 'x' := by simpa using hx
        rw [List.all_cons, Bool.and_eq_true] at hw
        exact ne_x_of_isHexDigit hw.2.1 hc'
    rw [List.cons_append, addrGo, if_neg hcond]
    rw [ih _ hw.2, exitW_cons]
    rfl

/-- If `0x` plus 40 hex digits sits at the head (as the address-pass
guard demands), `run40At` reports it. -/
theorem run40At_of_head {c : Char} {cs : List Char} (h1 : c = '0')
    (h2 : cs.head? = some 'x') (h3 : (cs.tail.take 40).length = 40)
    (h4 : (cs.tail.take 40).all isHexDigit = true) :
    run40At (c :: cs) = true := by
  subst h1
  cases cs with
  | nil => simp at h2
  | cons c' t =>
    have hc' : c' = 'x' := by simpa using h2
    subst hc'
    rw [List.tail_cons] at h3 h4
    rw [run40At]
    simp only [Bool.and_eq_true, beq_iff_eq, beq_self_eq_true, true_and]
    exact ⟨h3, h4⟩

/-- The transaction-hash guard (64 hex digits) implies the common
40-digit prefix condition. -/
theorem run40_of_run64 {t : List Char} (h3 : (t.take 64).length = 64)
    (h4 : (t.take 64).all isHexDigit = true) :
    (t.take 40).length = 40 ∧ (t.take 40).all isHexDigit = true := by
  have hlen : 64 ≤ t.length := by
    rw [List.length_take] at h3
    omega
  have ht : t.take 40 = (t.take 64).take 40 := by
    have hmin : (40 : Nat) ⊓ 64 = 40 := by decide
    rw [List.take_take, hmin]
  constructor
  · rw [List.length_take]
    omega
  · rw [ht, List.all_eq_true] at *
    intro x hx
    exact h4 x (List.take_subset _ _ hx)

/-- A list with no `0x`-plus-40-hex occurrence passes the
transaction-hash scan unchanged. -/
theorem txGo_id_of_no_run40 (l : List Char) (h : hasRun40 l = false) :
    txGo 0 l = l := by
  induction l with
  | nil => rfl
  | cons c cs ih =>
    rw [hasRun40, Bool.or_eq_false_iff] at h
    obtain ⟨ha, hb⟩ := h
    have hneg : ¬(c = '0' ∧ cs.head? = some 'x' ∧ (cs.tail.take 64).length = 64
        ∧ (cs.tail.take 64).all isHexDigit = true) := by
      rintro ⟨h1, h2, h3, h4⟩
      obtain ⟨h3', h4'⟩ := run40_of_run64 h3 h4
      rw [run40At_of_head h1 h2 h3' h4'] at ha
      exact absurd ha (by decide)
    rw [txGo, if_neg hneg, ih hb]

/-- A list with no `0x`-plus-40-hex occurrence passes the address scan
unchanged. -/
theorem addrGo_id_of_no_run40 (b : Bool) (l : List Char) (h : hasRun40 l = false) :
    addrGo 0 b l = l := by
  induction l generalizing b with
  | nil => rfl
  | cons c cs ih =>
    rw [hasRun40, Bool.or_eq_false_iff] at h
    obtain ⟨ha, hb⟩ := h
    have hneg : ¬(b = false ∧ c = '0' ∧ cs.head? = some 'x'
        ∧ (cs.tail.take 40).length = 40
        ∧ (cs.tail.take 40).all isHexDigit = true
        ∧ (match (cs.tail.drop 40).head? with
           | none => true
           | some d => !isWordChar d) = true) := by
      rintro ⟨-, h1, h2, h3, h4, -⟩
      rw [run40At_of_head h1 h2 h3 h4] at ha
      exact absurd ha (by decide)
    rw [addrGo, if_neg hneg, ih _ hb]

/-- `noZeroX` holds on nonempty all-`a` runs. -/
theorem noZeroX_cons_replicate (n : Nat) :
    noZeroX ('a' :: List.replicate n 'a') = true := by
  induction n with
  | zero => rfl
  | succ n ih =>
    rw [List.replicate_succ, noZeroX]
    simp [ih]

/-- `noZeroX` holds on all-`a` runs. -/
theorem noZeroX_replicate (n : Nat) : noZeroX (List.replicate n 'a') = true := by
  cases n with
  | zero => rfl
  | succ n =>
    rw [List.replicate_succ]
    exact noZeroX_cons_replicate n

/-- All-`a` runs are hex. -/
theorem all_hex_replicate (n : Nat) :
    (List.replicate n 'a').all isHexDigit = true := by
  rw [List.all_eq_true]
  intro x hx
  rw [List.eq_of_mem_replicate hx]
  decide

/-- A list without `0x` passes the transaction-hash scan unchanged. -/
theorem txGo_id_of_noZeroX (l : List Char) (hz : noZeroX l = true) :
    txGo 0 l = l := by
  have h := txSkip l [] hz (by intro _ h; simp at h)
  simpa [show txGo 0 [] = ([] : List Char) from rfl] using h

/-- A list without `0x` passes the address scan unchanged. -/
theorem addrGo_id_of_noZeroX (b : Bool) (l : List Char) (hz : noZeroX l = true) :
    addrGo 0 b l = l := by
  have h := addrSkip l b [] hz (by intro _ h; simp at h)
  simpa [show addrGo 0 (exitW l b) [] = ([] : List Char) from rfl] using h

/-- A list whose head is known not to be `x` cannot have head `x`. -/
theorem head_ne_x_of_head_eq {p : List Char} {c : Char} (h1 : p.head? = some c)
    (h2 : c ≠ 'x') : p.head? ≠ some 'x' := by
  rw [h1]
  intro he
  exact h2 (Option.some.inj he)

/-- `all` restricts to `take`. -/
theorem all_take_of_all {l : List Char} {p : Char → Bool} (h : l.all p = true)
    (n : Nat) : (l.take n).all p = true := by
  rw [List.all_eq_true] at *
  intro x hx
  exact h x (List.take_subset _ _ hx)

/-- `all` restricts to `drop`. -/
theorem all_drop_of_all {l : List Char} {p : Char → Bool} (h : l.all p = true)
    (n : Nat) : (l.drop n).all p = true := by
  rw [List.all_eq_true] at *
  intro x hx
  exact h x (List.drop_subset _ _ hx)

/-- The address pass walks over `0x` followed by a full 64-hex run (as
found inside the generated href) without matching: the leading `\b`
holds, but the candidate's trailing `\b` falls between the 40th and
41st hex digits, two word characters. -/
theorem addrGo_hash_step (h R : List Char) (hlen : h.length = 64)
    (hall : h.all isHexDigit = true) :
    addrGo 0 false ('0' :: 'x' :: (h ++ (txPartB ++ R)))
      = '0' :: 'x' :: (h ++ (txPartB ++ addrGo 0 false R)) := by
  have hne : h ≠ [] := by
    intro he
    rw [he] at hlen
    simp at hlen
  rw [addrGo]
  split
  · next hc =>
    exfalso
    obtain ⟨-, -, -, -, -, h6⟩ := hc
    rw [List.tail_cons, List.drop_append_eq_append_drop, hlen] at h6
    obtain ⟨d, t, hdt⟩ : ∃ d t, h.drop 40 = d :: t := by
      cases hdr : h.drop 40 with
      | nil =>
        have := congrArg List.length hdr
        rw [List.length_drop, hlen] at this
        simp at this
      | cons d t => exact ⟨d, t, rfl⟩
    rw [hdt, List.cons_append, List.head?_cons] at h6
    have hdh : isHexDigit d = true := by
      have hdm : d ∈ h := List.drop_subset 40 h (hdt ▸ List.mem_cons_self d t)
      rw [List.all_eq_true] at hall
      exact hall d hdm
    have h6' : (!isWordChar d) = true := h6
    rw [isWordChar_of_isHexDigit hdh] at h6'
    exact absurd h6' (by decide)
  · next hc =>
    rw [addrGo]
    split
    · next hc2 =>
      obtain ⟨hb, -⟩ := hc2
      exact absurd hb (by decide)
    · next hc2 =>
      rw [hexSkip h _ (txPartB ++ R) hall (head_ne_x_of_head_eq rfl (by decide)),
        exitW_hex _ hne hall]
      rw [addrSkip txPartB true R (by decide) (fun hl => absurd hl (by decide))]
      rw [show exitW txPartB true = false from rfl]

/-- The address pass walks over `0x` followed by the 8-hex label slice
without matching: the dot after the slice breaks the 40-hex demand. -/
theorem addrGo_label_step (g R : List Char) (hg : g.all isHexDigit = true)
    (hglen : g.length = 8) :
    addrGo 0 false ('0' :: 'x' :: (g ++ (sliceDots ++ R)))
      = '0' :: 'x' :: (g ++ (sliceDots ++ addrGo 0 false R)) := by
  have hne : g ≠ [] := by
    intro he
    rw [he] at hglen
    simp at hglen
  rw [addrGo]
  split
  · next hc =>
    exfalso
    obtain ⟨-, -, -, -, h5, -⟩ := hc
    rw [List.tail_cons, List.all_eq_true] at h5
    have hmem : '.' ∈ List.take 40 (g ++ (sliceDots ++ R)) := by
      rw [List.take_append_eq_append_take, hglen]
      apply List.mem_append_right
      rw [List.take_append_eq_append_take]
      apply List.mem_append_left
      decide
    exact absurd (h5 '.' hmem) (by decide)
  · next hc =>
    rw [addrGo]
    split
    · next hc2 =>
      obtain ⟨hb, -⟩ := hc2
      exact absurd hb (by decide)
    · next hc2 =>
      rw [hexSkip g _ (sliceDots ++ R) hg (head_ne_x_of_head_eq rfl (by decide)),
        exitW_hex _ hne hg]
      rw [addrSkip sliceDots true R (by decide) (fun hl => absurd hl (by decide))]
      rw [show exitW sliceDots true = false from rfl]

set_option maxRecDepth 40000 in
/-- The whole transaction-hash replacement block passes the address
pass unchanged, whatever precedes and follows it: no address match can
start inside it (the raw hash in the href fails the trailing `\b`, the
label slice is too short, and the markup text contains no other `0x`),
and none can cross its `<`/`>` delimiters, which are not hex. -/
theorem blockSkip (b : Bool) (h rest : List Char) (hlen : h.length = 64)
    (hall : h.all isHexDigit = true) :
    addrGo 0 b (txBlock ('0' :: 'x' :: h) ++ rest)
      = txBlock ('0' :: 'x' :: h) ++ addrGo 0 false rest := by
  have hall8 : (h.take 8).all isHexDigit = true := all_take_of_all hall 8
  have hall56 : (h.drop 56).all isHexDigit = true := all_drop_of_all hall 56
  have hne56 : h.drop 56 ≠ [] := by
    intro he
    have := congrArg List.length he
    rw [List.length_drop, hlen] at this
    simp at this
  have hlen8 : (h.take 8).length = 8 := by
    rw [List.length_take, hlen]
    decide
  have htake : ('0' :: 'x' :: h).take 10 = '0' :: 'x' :: h.take 8 := rfl
  have hlen2 : ('0' :: 'x' :: h).length - 8 = 58 := by
    simp [List.length_cons, hlen]
  have hdrop : ('0' :: 'x' :: h).drop 58 = h.drop 56 := rfl
  rw [txBlock, hlen2, htake, hdrop]
  simp only [List.append_assoc, List.cons_append]
  rw [addrSkip txPartA b _ (by decide) (fun hl => absurd hl (by decide))]
  rw [show exitW txPartA b = false from rfl]
  rw [addrGo_hash_step h _ hlen hall]
  rw [addrGo_label_step (h.take 8) _ hall8 hlen8]
  rw [hexSkip (h.drop 56) false (txPartC ++ rest) hall56
    (head_ne_x_of_head_eq rfl (by decide))]
  rw [exitW_hex false hne56 hall56]
  rw [addrSkip txPartC true rest (by decide) (fun hl => absurd hl (by decide))]
  rw [show exitW txPartC true = false from rfl]

/-- The transaction-hash pass copies an all-hex segment: no match can
start at or inside it because `x` is not a hex digit. -/
theorem txHexSkip (w rest : List Char) (hw : w.all isHexDigit = true)
    (hj : rest.head? ≠ some 'x') :
    txGo 0 (w ++ rest) = w ++ txGo 0 rest := by
  induction w with
  | nil => simp
  | cons c w' ih =>
    rw [List.all_cons, Bool.and_eq_true] at hw
    have hcond : ¬(c = '0' ∧ (w' ++ rest).head? = some 'x'
        ∧ ((w' ++ rest).tail.take 64).length = 64
        ∧ ((w' ++ rest).tail.take 64).all isHexDigit = true) := by
      rintro ⟨-, hx, -, -⟩
      cases w' with
      | nil => exact hj (by simpa using hx)
      | cons c' w'' =>
        have hc' : c' = 'x' := by simpa using hx
        rw [List.all_cons, Bool.and_eq_true] at hw
        exact ne_x_of_isHexDigit hw.2.1 hc'
    rw [List.cons_append, txGo, if_neg hcond, ih hw.2]
    rfl

/-- After an all-hex segment entered with word status true, the status
is still true. -/
theorem exitW_hex_true (w : List Char) (hw : w.all isHexDigit = true) :
    exitW w true = true := by
  cases w with
  | nil => rfl
  | cons c w' => exact exitW_hex true (by simp) hw

/-- When the next character stops a run, the transaction-hash pass
leaves the head character in place. -/
theorem txGo_head_stop (q : List Char) (hq : headStopsRun q = true) :
    (txGo 0 q).head? = q.head? := by
  cases q with
  | nil => rfl
  | cons c q' =>
    simp only [headStopsRun, Bool.and_eq_true, Bool.not_eq_true'] at hq
    have hc0 : c ≠ '0' := by
      intro he
      rw [he] at hq
      exact absurd hq.1 (by decide)
    rw [txGo, if_neg]
    · rfl
    · rintro ⟨h1, -⟩
      exact hc0 h1

/-! ## Claim theorems -/

/-- **C1** For every successful `sendMessage` reply in the submission
path: if the reply payload contains a wallet whose address differs from
the currently cached wallet's address, or no wallet is currently
cached, the orchestrator overwrites the Wallet State Store with the new
record; otherwise the store is left unchanged — and this success path
is the sole path by which wallet state can change after startup (the
failure path and the guarded no-op submission leave it untouched). -/
theorem c1_wallet_reconciliation (r : SendResponse) (e : Unit) (m : String)
    (s : AppState) (result : Except Unit SendResponse) (input : String) :
    (handleSend (Except.ok r) m s).walletSt = walletReconSpec s.walletSt r.wallet
    ∧ (handleSend (Except.error e) m s).walletSt = s.walletSt
    ∧ (s.chat.isLoading = true → handleSubmit result input s = (s, false)) := by
  refine ⟨?_, rfl, ?_⟩
  · cases hw : r.wallet with
    | none => simp [handleSend, walletReconSpec, hw]
    | some w =>
      cases hc : s.walletSt.wallet with
      | none =>
        simp [handleSend, walletReconSpec, hw, hc, walletNeedsUpdate, setWallet]
      | some c =>
        by_cases h : c.address = w.address
        · simp [handleSend, walletReconSpec, hw, hc, walletNeedsUpdate, h, setWallet]
        · simp [handleSend, walletReconSpec, hw, hc, walletNeedsUpdate, h, setWallet]
  · intro h
    simp [handleSubmit, h]

/-- Witness for C1 at concrete inputs (the guarded conjunct discharged
in a busy chat state). -/
theorem c1_wallet_reconciliation_witness :
    (handleSend (Except.ok ⟨"hello", some ⟨"0xA", "base-sepolia"⟩⟩) "hi" busyChatState).walletSt
        = walletReconSpec busyChatState.walletSt (some ⟨"0xA", "base-sepolia"⟩)
    ∧ (handleSend (Except.error ()) "hi" busyChatState).walletSt = busyChatState.walletSt
    ∧ handleSubmit (Except.error ()) "x" busyChatState = (busyChatState, false) := by
  have h := c1_wallet_reconciliation ⟨"hello", some ⟨"0xA", "base-sepolia"⟩⟩ () "hi"
    busyChatState (Except.error ()) "x"
  exact ⟨h.1, h.2.1, h.2.2 rfl⟩

/-- **C2** For every submission whose gateway call throws: the
conversation ends with the optimistic user message followed by exactly
one synthetic assistant message carrying the fixed error string, the
busy flag is false afterward, and the Wallet State Store is unchanged
(no retry exists: `handleSend` performs a single gateway call). -/
theorem c2_gateway_failure (e : Unit) (m : String) (s : AppState) :
    (handleSend (Except.error e) m s).chat.messages
        = s.chat.messages ++ [⟨Role.user, m⟩, ⟨Role.assistant, errorText⟩]
    ∧ (handleSend (Except.error e) m s).chat.isLoading = false
    ∧ (handleSend (Except.error e) m s).walletSt = s.walletSt := by
  refine ⟨?_, rfl, rfl⟩
  simp [handleSend, addMessage, setChatLoading]

/-- **C3** A submission attempted while the chat sub-state is
`AwaitingChatReply` (`isLoading = true`), or whose input trims to the
empty string, is a no-op: the state (hence the message-list length) is
unchanged and no gateway call is started. -/
theorem c3_submission_guard (result : Except Unit SendResponse) (input : String)
    (s : AppState) (h : s.chat.isLoading = true ∨ input.trim = "") :
    handleSubmit result input s = (s, false) := by
  rcases h with h | h <;> simp [handleSubmit, h]

/-- Witness for C3: submitting while busy is a no-op. -/
theorem c3_submission_guard_witness :
    (busyChatState.chat.isLoading = true ∨ ("x" : String).trim = "")
    ∧ handleSubmit (Except.error ()) "x" busyChatState = (busyChatState, false) :=
  ⟨Or.inl rfl, c3_submission_guard (Except.error ()) "x" busyChatState (Or.inl rfl)⟩

/-- **C8** `getSessionId` persists what it returns; a second call on the
resulting storage returns the identical value; and every later call
(any sequence of oracle inputs) keeps returning that same id. -/
theorem c8_session_idempotence (st : Option String) (n₁ n₂ : Nat) (r₁ r₂ : String)
    (calls : List (Nat × String)) :
    (getSessionId st n₁ r₁).2 = some (getSessionId st n₁ r₁).1
    ∧ (getSessionId (getSessionId st n₁ r₁).2 n₂ r₂).1 = (getSessionId st n₁ r₁).1
    ∧ ((runCalls (getSessionId st n₁ r₁).2 calls).1.all
        (fun i => i == (getSessionId st n₁ r₁).1)) = true := by
  obtain ⟨hp, hne⟩ := getSessionId_persists st n₁ r₁
  refine ⟨hp, ?_, ?_⟩
  · rw [hp, getSessionId_stable _ hne]
  · rw [hp, runCalls_stable _ hne]
    simp [List.all_eq_true, List.eq_of_mem_replicate]

/-- **C9** The startup wallet fetch from the initial store state: with a
wallet in the payload the store holds that record; with no wallet the
store is cleared (`wallet` null, busy false); on failure the store is
unchanged; the busy flag is false in every outcome and the conversation
is untouched. -/
theorem c9_startup_wallet_fetch (w : WalletRecord) (result : Except Unit FetchResponse) :
    (fetchWallet (Except.ok ⟨some w⟩) initialAppState).walletSt
        = { wallet := some w, isLoading := false }
    ∧ (fetchWallet (Except.ok ⟨none⟩) initialAppState).walletSt
        = { wallet := none, isLoading := false }
    ∧ (fetchWallet (Except.error ()) initialAppState).walletSt = initialAppState.walletSt
    ∧ (fetchWallet result initialAppState).walletSt.isLoading = false
    ∧ (fetchWallet result initialAppState).chat = initialAppState.chat := by
  refine ⟨rfl, rfl, rfl, ?_, ?_⟩ <;>
    rcases result with u | ⟨_ | w'⟩ <;> rfl

/-- **C10** `setWallet` always writes the busy flag to false in the same
update: the cached wallet cannot be replaced while leaving the busy
flag true. -/
theorem c10_setWallet_clears_busy (s : WalletState) (w : Option WalletRecord) :
    (setWallet w s).isLoading = false ∧ (setWallet w s).wallet = w :=
  ⟨rfl, rfl⟩

/-- **C7** If a string contains no `0x` followed by 40 hex digits (in
particular, no `0x`-prefixed hex run of length 40 or 64 — both regex
patterns require at least that prefix), the formatter returns it
byte-for-byte unchanged. -/
theorem c7_format_identity (s : String) (h : hasRun40 s.data = false) :
    formatMessage s = s := by
  show String.mk (addrGo 0 false (txGo 0 s.data)) = s
  rw [txGo_id_of_no_run40 _ h, addrGo_id_of_no_run40 _ _ h]

/-- Witness for C7: text with whitespace, a line break and a short hex
token is preserved exactly. -/
theorem c7_format_identity_witness :
    hasRun40 ("hi 0x123 world\n ok".data) = false
    ∧ formatMessage "hi 0x123 world\n ok" = "hi 0x123 world\n ok" :=
  ⟨by decide, c7_format_identity _ (by decide)⟩

set_option maxRecDepth 100000 in
/-- **C5, counterexample** The claim says a `0x`-prefixed run of 80 hex
characters is left entirely unformatted; the transaction-hash pattern
has no trailing boundary, so the code formats its first 66 characters. -/
theorem c5_counterexample :
    formatMessage (String.mk ('0' :: 'x' :: List.replicate 80 'a'))
      ≠ String.mk ('0' :: 'x' :: List.replicate 80 'a') := by
  decide

set_option maxRecDepth 400000 in
/-- **C5, amended** A malformed token — `0x` followed by a maximal run
of hex digits whose length is below 64 and not exactly 40 (which covers
tokens cut short by a non-hex character: the run ends where the non-hex
character begins) — matches neither pattern, and the whole token is
left byte-for-byte unformatted, for every such run of arbitrary hex
digits embedded in any input text, provided the text before the token
contains no `0x` and the character after the run is neither a hex
digit nor `x` (without these provisos an overlapping transaction-hash
match can consume part of the run, exactly as in the C4
counterexample).  A run of 64 or more hex digits does match the
transaction-hash pattern on its first 64 digits: a `0x`-prefixed run
of 80 hex characters has its first 66 characters replaced by the hash
hyperlink and its trailing 16 characters left unformatted, with no
address-style replacement anywhere. -/
theorem c5_amended_malformed_hex :
    (∀ p h q : List Char, noZeroX p = true → h.all isHexDigit = true →
      h.length < 64 → h.length ≠ 40 → headStopsRun q = true →
      formatMessage (String.mk (p ++ ('0' :: 'x' :: h) ++ q))
        = String.mk (p ++ ('0' :: 'x' :: h) ++ addrReplace true (txReplace q)))
    ∧ formatMessage (String.mk ('0' :: 'x' :: List.replicate 80 'a'))
        = String.mk (txBlock tokenA64 ++ List.replicate 16 'a') := by
  constructor
  · intro p h q hp hall h64 h40 hq
    have hqx : q.head? ≠ some 'x' := by
      cases q with
      | nil => simp
      | cons c q' =>
        simp only [headStopsRun, Bool.and_eq_true, Bool.not_eq_true',
          beq_eq_false_iff_ne] at hq
        simp [hq.2]
    have hTx : (txGo 0 q).head? ≠ some 'x' := by
      rw [txGo_head_stop q hq]
      exact hqx
    show String.mk (addrGo 0 false (txGo 0 (p ++ ('0' :: 'x' :: h) ++ q))) = _
    have hform : p ++ ('0' :: 'x' :: h) ++ q = p ++ ('0' :: 'x' :: (h ++ q)) := by
      simp
    rw [hform]
    have htx : txGo 0 (p ++ ('0' :: 'x' :: (h ++ q)))
        = p ++ ('0' :: 'x' :: (h ++ txGo 0 q)) := by
      rw [txSkip p ('0' :: 'x' :: (h ++ q)) hp
        (fun _ => head_ne_x_of_head_eq rfl (by decide))]
      congr 1
      rw [txGo]
      split
      · next hc =>
        exfalso
        obtain ⟨-, -, hlen64, hall64⟩ := hc
        rw [List.tail_cons] at hlen64 hall64
        cases q with
        | nil =>
          rw [List.append_nil, List.length_take] at hlen64
          omega
        | cons c q' =>
          simp only [headStopsRun, Bool.and_eq_true, Bool.not_eq_true'] at hq
          have hmem : c ∈ (h ++ c :: q').take 64 := by
            rw [List.take_append_eq_append_take]
            apply List.mem_append_right
            rw [show 64 - h.length = (63 - h.length) + 1 from by omega,
              List.take_succ_cons]
            exact List.mem_cons_self c _
          rw [List.all_eq_true] at hall64
          have hch := hall64 c hmem
          rw [hq.1] at hch
          exact absurd hch (by decide)
      · next hc =>
        rw [txGo]
        split
        · next hc2 =>
          obtain ⟨h1, -⟩ := hc2
          exact absurd h1 (by decide)
        · next hc2 =>
          rw [txHexSkip h q hall hqx]
    rw [htx]
    have haddr : addrGo 0 false (p ++ ('0' :: 'x' :: (h ++ txGo 0 q)))
        = p ++ ('0' :: 'x' :: (h ++ addrGo 0 true (txGo 0 q))) := by
      rw [addrSkip p false ('0' :: 'x' :: (h ++ txGo 0 q)) hp
        (fun _ => head_ne_x_of_head_eq rfl (by decide))]
      congr 1
      rw [addrGo]
      split
      · next hc =>
        exfalso
        obtain ⟨-, -, -, hlen40, hall40, hbd⟩ := hc
        rw [List.tail_cons] at hlen40 hall40 hbd
        rcases Nat.lt_or_ge h.length 40 with hn | hn
        · cases q with
          | nil =>
            rw [show txGo 0 ([] : List Char) = [] from rfl, List.append_nil,
              List.length_take] at hlen40
            omega
          | cons c q' =>
            have hhead : (txGo 0 (c :: q')).head? = some c := by
              rw [txGo_head_stop _ hq]
              rfl
            obtain ⟨T', hT⟩ : ∃ T', txGo 0 (c :: q') = c :: T' := by
              cases hT0 : txGo 0 (c :: q') with
              | nil => rw [hT0] at hhead; simp at hhead
              | cons d T'' =>
                rw [hT0] at hhead
                simp only [List.head?_cons, Option.some.injEq] at hhead
                exact ⟨T'', by rw [hhead]⟩
            rw [hT] at hlen40 hall40
            have hmem : c ∈ (h ++ c :: T').take 40 := by
              rw [List.take_append_eq_append_take]
              apply List.mem_append_right
              rw [show 40 - h.length = (39 - h.length) + 1 from by omega,
                List.take_succ_cons]
              exact List.mem_cons_self c _
            rw [List.all_eq_true] at hall40
            have hch := hall40 c hmem
            simp only [headStopsRun, Bool.and_eq_true, Bool.not_eq_true'] at hq
            rw [hq.1] at hch
            exact absurd hch (by decide)
        · have hgt : 40 < h.length := by omega
          rw [List.drop_append_eq_append_drop] at hbd
          obtain ⟨d, t, hdt⟩ : ∃ d t, h.drop 40 = d :: t := by
            cases hdr : h.drop 40 with
            | nil =>
              have hld := congrArg List.length hdr
              rw [List.length_drop] at hld
              simp at hld
              omega
            | cons d t => exact ⟨d, t, rfl⟩
          rw [hdt, List.cons_append, List.head?_cons] at hbd
          have hdh : isHexDigit d = true := by
            have hdm : d ∈ h := List.drop_subset 40 h (hdt ▸ List.mem_cons_self d t)
            rw [List.all_eq_true] at hall
            exact hall d hdm
          have hbd' : (!isWordChar d) = true := hbd
          rw [isWordChar_of_isHexDigit hdh] at hbd'
          exact absurd hbd' (by decide)
      · next hc =>
        rw [addrGo]
        split
        · next hc2 =>
          obtain ⟨hb, -⟩ := hc2
          exact absurd hb (by decide)
        · next hc2 =>
          rw [hexSkip h _ (txGo 0 q) hall hTx]
          rw [show isWordChar 'x' = true from rfl, exitW_hex_true h hall]
    rw [haddr, List.append_assoc]
    rfl
  · decide

/-- Witness for C5 (amended): the malformed token `0xdE5` — three
arbitrary hex digits cut short by the non-hex `g` — embedded between
`"send "` and `"g end"` is left intact. -/
theorem c5_amended_malformed_hex_witness :
    noZeroX ("send ".data) = true
    ∧ ("dE5".data.all isHexDigit) = true
    ∧ "dE5".data.length < 64
    ∧ "dE5".data.length ≠ 40
    ∧ headStopsRun ("g end".data) = true
    ∧ formatMessage (String.mk ("send ".data ++ ('0' :: 'x' :: "dE5".data)
          ++ "g end".data))
        = String.mk ("send ".data ++ ('0' :: 'x' :: "dE5".data)
            ++ addrReplace true (txReplace "g end".data)) :=
  ⟨by decide, by decide, by decide, by decide, by decide,
    c5_amended_malformed_hex.1 "send ".data "dE5".data "g end".data
      (by decide) (by decide) (by decide) (by decide) (by decide)⟩

set_option maxRecDepth 100000 in
/-- **C6, counterexample** The claim says the link label separates the
two slices with the character `…` (U+2026); the code writes three
ASCII dots, and no `…` occurs anywhere in the formatted C6 scenario
output. -/
theorem c6_counterexample :
    ¬ ('…' ∈ (formatMessage (String.mk c6Input)).data) := by
  decide

set_option maxRecDepth 400000 in
/-- **C6, amended** Formatting `"tx 0x" ++ "a"*64 ++ " done"` replaces
exactly the token with the hash hyperlink block, leaving `"tx "` and
`" done"` unchanged; the block's visible label is the token's first 10
characters, then three ASCII dots `...`, then its last 8 characters,
and its href is the fixed explorer base URL plus the full token. -/
theorem c6_amended_scenario :
    formatMessage (String.mk c6Input)
        = String.mk ("tx ".data ++ txBlock tokenA64 ++ " done".data)
    ∧ ("0xaaaaaaaa...aaaaaaaa".data <:+: (formatMessage (String.mk c6Input)).data)
    ∧ (("https://sepolia.basescan.org/tx/".data ++ tokenA64)
        <:+: (formatMessage (String.mk c6Input)).data) := by
  refine ⟨by decide, ?_, ?_⟩ <;> rw [← containsSeq_iff] <;> decide

set_option maxRecDepth 400000 in
/-- **C4, counterexample** In the input `"0x" ++ "b"*63 ++ "0x" ++
"a"*64` the token `0x` + 64 `a`s is present, but the first pass matches
`0x` + (63 `b`s and the token's leading `0`), consuming into the token;
the token itself gets no hyperlink: were the claim true, its full raw
hash (and so the 66-character token) would occur inside the generated
href, but the token occurs nowhere in the output. -/
theorem c4_counterexample :
    ¬ (tokenA64 <:+: (formatMessage (String.mk overlapInput)).data) := by
  rw [← containsSeq_iff]
  decide

set_option maxRecDepth 40000 in
/-- **C4, amended** For every input of the form `p ++ token ++ q` where
the token is `0x` plus 64 hex digits and the preceding text `p`
contains no occurrence of `0x` (so no earlier transaction-hash match
overlaps the token — without this proviso the claim fails, see the
counterexample), the formatter replaces exactly the token's span by the
single hash-hyperlink block (whose href carries the full raw hash),
never re-matches any part of that span as an address — the block
passes the address pass unchanged — and processes `p` and `q`
independently. -/
theorem c4_amended_precedence (p h q : List Char) (hp : noZeroX p = true)
    (hlen : h.length = 64) (hall : h.all isHexDigit = true) :
    formatMessage (String.mk (p ++ ('0' :: 'x' :: h) ++ q))
      = String.mk (p ++ txBlock ('0' :: 'x' :: h)
          ++ addrReplace false (txReplace q)) := by
  show String.mk (addrGo 0 false (txGo 0 (p ++ ('0' :: 'x' :: h) ++ q))) = _
  have hform : p ++ ('0' :: 'x' :: h) ++ q = p ++ ('0' :: 'x' :: (h ++ q)) := by
    simp
  rw [hform]
  have htx : txGo 0 (p ++ ('0' :: 'x' :: (h ++ q)))
      = p ++ (txBlock ('0' :: 'x' :: h) ++ txGo 0 q) := by
    rw [txSkip p ('0' :: 'x' :: (h ++ q)) hp
      (fun _ => head_ne_x_of_head_eq rfl (by decide))]
    congr 1
    rw [txGo]
    split
    · next hc =>
      have ht : ('x' :: (h ++ q)).tail.take 64 = h := by
        rw [List.tail_cons, ← hlen, List.take_left]
      rw [ht]
      congr 1
      have h65 : ('x' :: (h ++ q)).drop 65 = (h ++ q).drop 64 := rfl
      rw [txGo_skip, h65, ← hlen, List.drop_left]
    · next hc =>
      exfalso
      apply hc
      refine ⟨rfl, rfl, ?_, ?_⟩
      · rw [List.tail_cons, ← hlen, List.take_left]
      · rw [List.tail_cons, ← hlen, List.take_left]
        exact hall
  rw [htx]
  rw [addrSkip p false (txBlock ('0' :: 'x' :: h) ++ txGo 0 q) hp
    (fun _ => head_ne_x_of_head_eq rfl (by decide))]
  rw [blockSkip (exitW p false) h _ hlen hall, List.append_assoc]
  rfl

set_option maxRecDepth 400000 in
/-- Witness for C4 (amended) at `p = "tx "`, `h = "a"*64`,
`q = " done"`. -/
theorem c4_amended_precedence_witness :
    noZeroX ("tx ".data) = true
    ∧ (List.replicate 64 'a').length = 64
    ∧ (List.replicate 64 'a').all isHexDigit = true
    ∧ formatMessage (String.mk ("tx ".data ++ ('0' :: 'x' :: List.replicate 64 'a')
          ++ " done".data))
        = String.mk ("tx ".data ++ txBlock ('0' :: 'x' :: List.replicate 64 'a')
            ++ addrReplace false (txReplace " done".data)) :=
  ⟨by decide, by decide, by decide,
    c4_amended_precedence "tx ".data (List.replicate 64 'a') " done".data
      (by decide) (by decide) (by decide)⟩

end AgentWallet
